import Mathlib

/-! The Crankshaft script patcher (`patcher/js.go`).

A shallow embedding of the Go package `patcher`: the anchor locator
`findCoolClassConstructor`, the slice insertion `insertAtPos`, the in-memory and
on-disk parts of `patchCoolClass`, the guard `checkForOriginal` and the pipeline
`PatchJS`, followed by the properties established about them.

Go strings are modelled by `String` (read through their list of characters;
lengths in bytes are those of the UTF-8 encoding), Go `int` by `Int`, a Go
`[]string` by `Slice` (visible elements plus the spare slots of the backing
array, so that slice expressions go out of range exactly when they do in Go), a
panic by `none` or `Exit.panic`, and the file system by a map from paths to
contents.  Output on the terminal is left out.
-/

set_option maxRecDepth 100000

namespace Crankshaft

/-! ## Regular expressions -/

/-- A compiled regular expression of the shape `L1.*L2`: a literal, any run of
characters other than a newline, a literal.  Both patterns compiled in
`findCoolClassConstructor` have this shape. -/
structure Regexp where
  /-- The literal before `.*`. -/
  lead : List Char
  /-- The literal after `.*`. -/
  close : List Char

/-- Does `.*L2` match at the start of the text?  `.` stops at a newline. -/
def closesAfter (close : List Char) : List Char → Bool
  | [] => close.isPrefixOf []
  | c :: cs => close.isPrefixOf (c :: cs) || (c != '\n' && closesAfter close cs)

/-- Does `L1.*L2` match at the start of the text? -/
def matchAt (re : Regexp) (s : List Char) : Bool :=
  re.lead.isPrefixOf s && closesAfter re.close (s.drop re.lead.length)

/-- Does `L1.*L2` match at some position of the text (an unanchored search)? -/
def searchFrom (re : Regexp) : List Char → Bool
  | [] => matchAt re []
  | c :: cs => matchAt re (c :: cs) || searchFrom re cs

/-- `(*Regexp).MatchString`: the text contains a match of the expression. -/
def Regexp.MatchString (re : Regexp) (s : String) : Bool :=
  searchFrom re s.data

/-- `regexp.MustCompile` applied to `OpenQuickAccessMenu\(.*\) \{`. -/
def methodExp : Regexp := ⟨"OpenQuickAccessMenu(".data, ") \x7b".data⟩

/-- `regexp.MustCompile` applied to `constructor\(.*\) \{`. -/
def constructorExp : Regexp := ⟨"constructor(".data, ") \x7b".data⟩

/-! ## The anchor locator -/

/-- The first loop of `findCoolClassConstructor`: `lineNum` is incremented for
every line visited and the loop breaks at the first line matching `methodExp`.
The value is that of `lineNum` after the loop. -/
def scanMethod (lineNum : Nat) : List String → Nat
  | [] => lineNum
  | line :: rest =>
    if methodExp.MatchString line then lineNum + 1 else scanMethod (lineNum + 1) rest

/-- The error value built by `fmt.Errorf("constructor not found")`. -/
def errNotFound : String := "constructor not found"

/-- The second loop of `findCoolClassConstructor`, `for i := lineNum - 1; i >= 0; i--`,
with the counter `n = i + 1`: the first line met (going up) that matches
`constructorExp` makes the function return `i + 1` and a nil error; reaching the
top makes it return `0` and the error.  The index of `fileLines[i]` is always in
range, `lineNum` being at most `len(fileLines)`. -/
def scanConstructor (fileLines : List String) : Nat → Int × Option String
  | 0 => (0, some errNotFound)
  | i + 1 =>
    if constructorExp.MatchString (fileLines.getD i "") then ((i : Int) + 1, none)
    else scanConstructor fileLines i

/-- The function `findCoolClassConstructor`.  The result is the Go pair
`(int, error)`, the error being `none` for nil. -/
def findCoolClassConstructor (fileLines : List String) : Int × Option String :=
  scanConstructor fileLines (scanMethod 0 fileLines)

/-! ## Slices and `insertAtPos` -/

/-- A Go `[]string`: the `len` visible elements and, behind them, the
`cap - len` slots of the backing array that the slice may still grow into. -/
structure Slice where
  /-- The visible elements, `s[0] .. s[len(s)-1]`. -/
  elems : List String
  /-- The slots of the backing array between `len(s)` and `cap(s)`. -/
  spare : List String
  deriving DecidableEq, Repr

/-- The value of `len(s)`. -/
def Slice.len (s : Slice) : Nat := s.elems.length

/-- The value of `cap(s)`. -/
def Slice.cap (s : Slice) : Nat := s.elems.length + s.spare.length

/-- The slice expression `s[:hi]`: in range when `0 <= hi <= cap(s)`, a run-time
panic (`none`) otherwise. -/
def Slice.sliceHigh (s : Slice) (hi : Int) : Option Slice :=
  if 0 ≤ hi ∧ hi ≤ (s.cap : Int) then
    some ⟨(s.elems ++ s.spare).take hi.toNat, (s.elems ++ s.spare).drop hi.toNat⟩
  else none

/-- The slice expression `s[lo:]`: in range when `0 <= lo <= len(s)`, a run-time
panic (`none`) otherwise. -/
def Slice.sliceLow (s : Slice) (lo : Int) : Option Slice :=
  if 0 ≤ lo ∧ lo ≤ (s.len : Int) then some ⟨s.elems.drop lo.toNat, s.spare⟩ else none

/-- The call `append(s, t...)`.  When the result fits in `cap(s)` it is written
in place behind `s`; otherwise a new backing array is allocated, `grow` giving
the number of spare slots the run time leaves behind the result (from the old
capacity and the new length).  The elements of `t` are read before anything is
written (`append` copies with `memmove`), also when `t` shares the array. -/
def Slice.append (grow : Nat → Nat → Nat) (s : Slice) (t : List String) : Slice :=
  if t.length ≤ s.spare.length then ⟨s.elems ++ t, s.spare.drop t.length⟩
  else ⟨s.elems ++ t, List.replicate (grow s.cap (s.elems.length + t.length)) ""⟩

/-- The assignment `s[i] = v`: a run-time panic (`none`) unless `0 <= i < len(s)`. -/
def Slice.setIndex (s : Slice) (i : Int) (v : String) : Option Slice :=
  if 0 ≤ i ∧ i < (s.len : Int) then some ⟨s.elems.set i.toNat v, s.spare⟩ else none

/-- The function `insertAtPos`:
`*arr = append((*arr)[:idx+1], (*arr)[idx:]...)` then `(*arr)[idx] = val`.
The result is the new value of `*arr`, or `none` when the call panics. -/
def insertAtPos (grow : Nat → Nat → Nat) (arr : Slice) (idx : Int) (val : String) :
    Option Slice := do
  let front ← arr.sliceHigh (idx + 1)
  let back ← arr.sliceLow idx
  (Slice.append grow front back.elems).setIndex idx val

/-! ## The in-memory part of `patchCoolClass` -/

/-- The statement inserted in the constructor. -/
def exposure : String := "window.coolClass = this;"

/-- The first line of the format string of `patchCoolClass`. -/
def markerLine : String := "// file patched by crankshaft"

/-- The format string of `patchCoolClass` between its first line and the verb `%s`. -/
def scriptBeforePort : String :=
  "\n\t\tconsole.info(\x27[Crankshaft] Loading patched libraryroot~sp.js\x27);\n\n\t\twindow.addEventListener(\x27load\x27, () => \x7b\n\t\t\tconsole.info(\x27[Crankshaft] Page loading, making request to inject service\x27);\n\t\t\tfetch(\x27http://localhost:"

/-- The format string of `patchCoolClass` after the verb `%s`. -/
def scriptAfterPort : String :=
  "/rpc\x27, \x7b\n\t\t\t\tmethod: \x27POST\x27,\n\t\t\t\theaders: \x7b\n\t\t\t\t\t\x27Content-Type\x27: \x27application/json\x27,\n\t\t\t\t\x7d,\n\t\t\t\tbody: JSON.stringify(\x7b\n\t\t\t\t\tmethod: \x27InjectService.Inject\x27,\n\t\t\t\t\tparams: [],\n\t\t\t\t\tid: Date.now(),\n\t\t\t\t\x7d),\n\t\t\t\x7d)\n\t\t\x7d);\n\t"

/-- The value of `script`: `fmt.Sprintf` of the format string, whose only verb
is one `%s`, with `serverPort`. -/
def script (serverPort : String) : String :=
  markerLine ++ scriptBeforePort ++ serverPort ++ scriptAfterPort

/-- The part of `patchCoolClass` between reading the lines and opening the
output file: the value of `fileLines` after the two insertions, or `none` when
an insertion panics.  The error of `findCoolClassConstructor` is only printed,
and `constructorLineNum` holds the first result of the call also in that case. -/
def patchLines (grow : Nat → Nat → Nat) (fileLines : Slice) (serverPort : String) :
    Option Slice :=
  -- `constructorLineNum := -1` is overwritten by the assignment from the call
  let (constructorLineNum, _err) := findCoolClassConstructor fileLines.elems
  do
    let fileLines ←
      if constructorLineNum > -1 then insertAtPos grow fileLines constructorLineNum exposure
      else some fileLines
    insertAtPos grow fileLines 0 (script serverPort)

/-- The call `strings.Join(elems, sep)`. -/
def stringsJoin : List String → String → String
  | [], _ => ""
  | [a], _ => a
  | a :: b :: rest, sep => a ++ sep ++ stringsJoin (b :: rest) sep

/-! ## Strings, scanners and paths -/

/-- Is `substr` found at some position of the text? -/
def containsFrom (substr : List Char) : List Char → Bool
  | [] => substr.isPrefixOf []
  | c :: cs => substr.isPrefixOf (c :: cs) || containsFrom substr cs

/-- The call `strings.Contains(s, substr)`. -/
def stringsContains (s substr : String) : Bool :=
  containsFrom substr.data s.data

/-- The number of bytes of a Go string holding these characters. -/
def byteLen (cs : List Char) : Nat := (cs.map Char.utf8Size).sum

/-- The constant `bufio.MaxScanTokenSize`. -/
def maxScanTokenSize : Nat := 64 * 1024

/-- The helper `dropCR` of `bufio.ScanLines`: one trailing carriage return is dropped. -/
def dropCR (line : List Char) : List Char :=
  if line.getLast? = some '\r' then line.dropLast else line

/-- The value of `s.Text()` after one `s.Scan()` on a new `bufio.Scanner` over a
file with this content (the result of `Scan` is not looked at by the caller).
The token is the text before the first newline, or the whole content when there
is none, without a trailing carriage return.  The scanner finds it only when it
is shorter than `maxScanTokenSize` bytes: its buffer grows to that size and no
further, and a full buffer without a newline makes `Scan` fail with
`bufio.ErrTooLong`.  Then, and on an empty file, `Text` is empty. -/
def scanFirstLine (content : String) : String :=
  let line := content.data.takeWhile (fun c => c != '\n')
  if byteLen line < maxScanTokenSize then ⟨dropCR line⟩ else ""

/-- The function `path.Ext` on the reversed path: the extension, reversed. -/
def extReversed (rev : List Char) : List Char :=
  let last := rev.takeWhile (fun c => c != '/')
  if '.' ∈ last then last.takeWhile (fun c => c != '.') ++ ['.'] else []

/-- Modelled from the spec: `pathutil.AddExtPrefix`, not among the sources; the
derived path is the original path with the distinguishing suffix inserted
immediately before the file extension (`foo.js` gives `foo.unmin.js`). -/
def AddExtPrefix (p : String) (extPrefix : String) : String :=
  let ext := (extReversed p.data.reverse).reverse
  ⟨p.data.take (p.data.length - ext.length) ++ extPrefix.data ++ ext⟩

/-! ## The file system -/

/-- The file system: the content of every path that names a file. -/
abbrev FS := String → Option String

/-- The file system after `path` has been given the content `content`. -/
def FS.write (fs : FS) (path content : String) : FS :=
  fun q => if q = path then some content else fs q

/-- How a call ends: it returns a nil error, it returns an error, or it panics. -/
inductive Exit where
  | nil
  | err (msg : String)
  | panic
  deriving DecidableEq, Repr

/-- Modelled from the spec: `pathutil.Copy`, not among the sources; the content
of `src` is copied over `dst`, and the copy fails, leaving the files as they
are, when `src` cannot be read. -/
def Copy (fs : FS) (src dst : String) : FS × Option String :=
  match fs src with
  | none => (fs, some "open: no such file or directory")
  | some content => (fs.write dst content, none)

/-- What the program is run against, besides the file system: the library call
`path.Join`, the growth policy of `append`, the external formatter, the line
reader `pathutil.FileLines` and the debugging session of package `cdp`. -/
structure Env where
  /-- The call `path.Join(dir, name)`. -/
  pathJoin : String → String → String
  /-- Spare slots left by `append` when it reallocates (old capacity, new length). -/
  grow : Nat → Nat → Nat
  /-- The formatter `js-beautify` on the content of its input: the content of its
  output file, or `none` when it exits with a failure. -/
  jsBeautify : String → Option String
  /-- The lines `pathutil.FileLines` returns for a file with this content, or the
  error it returns. -/
  FileLines : String → Except String Slice
  /-- The error of `cdp.NewSteamClient(debugPort)`, `none` for nil. -/
  NewSteamClient : String → Option String
  /-- The error of `RunScriptInLibrary(script)` on the client of `debugPort`. -/
  RunScriptInLibrary : String → String → Option String

/-- The constant `libraryRootSP`. -/
def libraryRootSP : String := "libraryroot~sp.js"

/-- The function `checkForOriginal`: the files afterwards and the error returned. -/
def checkForOriginal (fs : FS) (scriptPath : String) : FS × Option String :=
  match fs scriptPath with
  | none => (fs, some "open: no such file or directory")
  | some content =>
    let firstLine := scanFirstLine content
    if stringsContains firstLine "patched by crankshaft" then
      match Copy fs (AddExtPrefix scriptPath ".orig") scriptPath with
      | (fs, some e) => (fs, some e)
      | (fs, none) => (fs, none)
    else (fs, none)

/-- The function `unmin`: the files afterwards, the path returned and the error.
The formatter reads `filePath` and writes `unminFilePath`. -/
def unmin (env : Env) (fs : FS) (filePath : String) : FS × String × Option String :=
  let unminFilePath := AddExtPrefix filePath ".unmin"
  match (fs filePath).bind env.jsBeautify with
  | none => (fs, "", some "exit status 1")
  | some out => (fs.write unminFilePath out, unminFilePath, none)

/-- The function `patchCoolClass`: the files afterwards and how the call ends.
The output file is opened with `O_WRONLY|O_TRUNC`, hence must exist. -/
def patchCoolClass (env : Env) (fs : FS) (unminPath origPath serverPort : String) :
    FS × Exit :=
  match fs unminPath with
  | none => (fs, Exit.err "open: no such file or directory")
  | some content =>
    match env.FileLines content with
    | Except.error e => (fs, Exit.err e)
    | Except.ok fileLines =>
      match patchLines env.grow fileLines serverPort with
      | none => (fs, Exit.panic)
      | some fileLines =>
        match fs origPath with
        | none => (fs, Exit.err "open: no such file or directory")
        | some _ => (fs.write origPath (stringsJoin fileLines.elems "\n"), Exit.nil)

/-- The function `reloadClient`. -/
def reloadClient (env : Env) (debugPort : String) : Exit :=
  match env.NewSteamClient debugPort with
  | some e => Exit.err e
  | none =>
    match env.RunScriptInLibrary debugPort "window.location.reload()" with
    | some e => Exit.err e
    | none => Exit.nil

/-- The function `PatchJS`: the files afterwards and how the call ends.  The
error of `checkForOriginal` is dropped, as in the source. -/
def PatchJS (env : Env) (fs : FS) (steamuiPath debugPort serverPort : String) : FS × Exit :=
  let scriptPath := env.pathJoin steamuiPath libraryRootSP
  let (fs, _) := checkForOriginal fs scriptPath
  let copyPath := AddExtPrefix scriptPath ".orig"
  match Copy fs scriptPath copyPath with
  | (fs, some e) => (fs, Exit.err e)
  | (fs, none) =>
    match unmin env fs scriptPath with
    | (fs, _, some e) => (fs, Exit.err e)
    | (fs, unminFilePath, none) =>
      match patchCoolClass env fs unminFilePath scriptPath serverPort with
      | (fs, Exit.nil) => (fs, reloadClient env debugPort)
      | (fs, e) => (fs, e)

/-- The eight lines of the end-to-end scenario. -/
def fooClass : List String :=
  ["class Foo \x7b", "  constructor(a) \x7b", "    this.a = a;", "  \x7d",
   "  OpenQuickAccessMenu(e) \x7b", "    return e;", "  \x7d", "\x7d"]

/-- Line `m` is the first line of the buffer that matches the method pattern. -/
def FirstMethodLine (fileLines : List String) (m : Nat) : Prop :=
  m < fileLines.length ∧ methodExp.MatchString (fileLines.getD m "") = true ∧
    ∀ j, j < m → methodExp.MatchString (fileLines.getD j "") = false

/-- Line `c` matches the constructor pattern and no line below it, down to line
`m` included, does: it is the nearest constructor line at or above line `m`. -/
def NearestConstructor (fileLines : List String) (m c : Nat) : Prop :=
  c ≤ m ∧ constructorExp.MatchString (fileLines.getD c "") = true ∧
    ∀ j, j ≤ m → c < j → constructorExp.MatchString (fileLines.getD j "") = false

instance (fileLines : List String) (m : Nat) : Decidable (FirstMethodLine fileLines m) := by
  unfold FirstMethodLine; infer_instance

instance (fileLines : List String) (m c : Nat) :
    Decidable (NearestConstructor fileLines m c) := by
  unfold NearestConstructor; infer_instance

/-- The spare slots behind the result of an insertion. -/
def spareAfter (grow : Nat → Nat → Nat) (arr : Slice) : List String :=
  if 0 < arr.spare.length then arr.spare.drop 1
  else List.replicate (grow arr.cap (arr.elems.length + 1)) ""


/-- A buffer with a class but neither pattern: the locator reports not found. -/
def noAnchor : List String := ["class Foo \x7b", "\x7d"]

/-- A buffer with a constructor line and no method line. -/
def constructorOnly : List String :=
  ["class Foo \x7b", "  constructor(a) \x7b", "  \x7d", "\x7d"]

/-- A buffer whose last line matches the constructor pattern. -/
def constructorLast : List String := ["class Foo \x7b", "  constructor(a) \x7b"]

/-- A buffer whose method line, the last one, also matches the constructor pattern. -/
def bothOnLastLine : List String :=
  ["class Foo \x7b", "  constructor(a) \x7b \x7d OpenQuickAccessMenu(e) \x7b"]

/-- Ten lines without anchors, for the insertion at index 5. -/
def tenLines : List String := ["l0", "l1", "l2", "l3", "l4", "l5", "l6", "l7", "l8", "l9"]

/-- A growth policy for `append` that leaves no spare slot. -/
def growExact : Nat → Nat → Nat := fun _ _ => 0

/-- The substring `checkForOriginal` looks for. -/
def patchMarker : String := "patched by crankshaft"

/-- The first line of a file content: the text before its first newline. -/
def firstLineOf (content : String) : String :=
  ⟨content.data.takeWhile (fun c => c != '\n')⟩

/-- A file content of one line: `maxScanTokenSize` letters, then the patch marker. -/
def longFirstLine : String :=
  ⟨List.replicate maxScanTokenSize 'a' ++ patchMarker.data⟩

/-- The path of the script in the examples. -/
def samplePath : String := "/steamui/libraryroot~sp.js"

/-- A file system where the script is `longFirstLine` and a backup exists. -/
def longLineFS : FS := fun p =>
  if p = samplePath then some longFirstLine
  else if p = "/steamui/libraryroot~sp.orig.js" then some "original"
  else none

/-- A file system where the script has the marker on its first line, and a
backup exists. -/
def markedFS : FS := fun p =>
  if p = samplePath then some "// file patched by crankshaft\nvar a;\n"
  else if p = "/steamui/libraryroot~sp.orig.js" then some "original"
  else none

/-- A file system where the script has the marker on its second line only, and
a backup exists. -/
def laterLineFS : FS := fun p =>
  if p = samplePath then some "var a;\n// file patched by crankshaft\n"
  else if p = "/steamui/libraryroot~sp.orig.js" then some "original"
  else none

/-- The content `checkForOriginal` leaves in the script: the backup when the
first line read carries the marker and a backup exists, the content itself
otherwise. -/
def pristine (fs : FS) (scriptPath content : String) : String :=
  if stringsContains (scanFirstLine content) patchMarker then
    (fs (AddExtPrefix scriptPath ".orig")).getD content
  else content

/-- The content `patchCoolClass` writes when the formatted file has this
content, or `none` when it returns an error or panics before writing. -/
def patchedContent (env : Env) (serverPort unminContent : String) : Option String :=
  match env.FileLines unminContent with
  | Except.error _ => none
  | Except.ok fileLines =>
    (patchLines env.grow fileLines serverPort).map (fun out => stringsJoin out.elems "\n")

/-- The content of the script after a run of `PatchJS` that found it pristine
with this content: the patched content, or the content itself when the
formatter or `patchCoolClass` did not get to write. -/
def contentAfterRun (env : Env) (serverPort content : String) : String :=
  ((env.jsBeautify content).bind (patchedContent env serverPort)).getD content

/-- The files after successive runs of `PatchJS` in the same directory, one run
for each pair of a debug port and a server port. -/
def patchRuns (env : Env) (steamuiPath : String) : FS → List (String × String) → FS
  | fs, [] => fs
  | fs, (debugPort, serverPort) :: rest =>
    patchRuns env steamuiPath (PatchJS env fs steamuiPath debugPort serverPort).1 rest

/-- The backup holds `original`, and the script holds either `original` or a
content whose first line carries the patch marker. -/
def BackupIntact (fs : FS) (scriptPath original : String) : Prop :=
  fs (AddExtPrefix scriptPath ".orig") = some original ∧
    ∃ t, fs scriptPath = some t ∧
      (t = original ∨ stringsContains (scanFirstLine t) patchMarker = true)

/-- The lines of a text, split at newlines, for the sample environment. -/
def splitLines (cs : List Char) : List (List Char) :=
  cs.foldr (fun c acc =>
    if c = '\n' then [] :: acc
    else match acc with
      | [] => [[c]]
      | l :: ls => (c :: l) :: ls) []

/-- An environment for the examples: paths are joined with a slash, the
formatter returns its input, the lines are those of `splitLines` in a slice
without spare capacity, and the debugging session succeeds. -/
def sampleEnv : Env where
  pathJoin := fun dir name => dir ++ "/" ++ name
  grow := growExact
  jsBeautify := fun content => some content
  FileLines := fun content => Except.ok ⟨(splitLines content.data).map String.mk, []⟩
  NewSteamClient := fun _ => none
  RunScriptInLibrary := fun _ _ => none

/-- A file system holding only the script, never patched: the eight lines of the
scenario. -/
def sampleFS : FS := fun p =>
  if p = samplePath then some (stringsJoin fooClass "\n") else none
/-! ## The matcher finds the matches of `L1.*L2` -/

theorem closesAfter_iff (close s : List Char) :
    closesAfter close s = true ↔
      ∃ w b, s = w ++ (close ++ b) ∧ ∀ c ∈ w, c ≠ '\n' := by
  induction s with
  | nil =>
    simp only [closesAfter, List.isPrefixOf_iff_prefix, List.prefix_nil]
    constructor
    · intro h; exact ⟨[], [], by simp [h], by simp⟩
    · rintro ⟨w, b, h, _⟩
      have := congrArg List.length h
      simp only [List.length_nil, List.length_append] at this
      exact List.length_eq_zero.mp (by omega)
  | cons c cs ih =>
    simp only [closesAfter, Bool.or_eq_true, Bool.and_eq_true, List.isPrefixOf_iff_prefix, ih,
      bne_iff_ne]
    constructor
    · rintro (⟨b, hb⟩ | ⟨hc, w, b, hcs, hw⟩)
      · exact ⟨[], b, by simp [hb], by simp⟩
      · refine ⟨c :: w, b, by simp [hcs], ?_⟩
        intro x hx
        rcases List.mem_cons.mp hx with rfl | hx
        · exact hc
        · exact hw x hx
    · rintro ⟨w, b, h, hw⟩
      cases w with
      | nil => exact Or.inl ⟨b, by simpa using h.symm⟩
      | cons x w =>
        simp only [List.cons_append, List.cons.injEq] at h
        obtain ⟨rfl, hcs⟩ := h
        exact Or.inr ⟨hw c (by simp), w, b, hcs, fun y hy => hw y (by simp [hy])⟩

theorem matchAt_iff (re : Regexp) (s : List Char) :
    matchAt re s = true ↔
      ∃ w b, s = re.lead ++ (w ++ (re.close ++ b)) ∧ ∀ c ∈ w, c ≠ '\n' := by
  simp only [matchAt, Bool.and_eq_true, List.isPrefixOf_iff_prefix, closesAfter_iff]
  constructor
  · rintro ⟨⟨r, hr⟩, w, b, h, hw⟩
    subst hr
    rw [List.drop_left] at h
    exact ⟨w, b, by rw [h], hw⟩
  · rintro ⟨w, b, h, hw⟩
    subst h
    exact ⟨⟨_, rfl⟩, w, b, by rw [List.drop_left], hw⟩

theorem searchFrom_iff (re : Regexp) (s : List Char) :
    searchFrom re s = true ↔
      ∃ a w b, s = a ++ (re.lead ++ (w ++ (re.close ++ b))) ∧ ∀ c ∈ w, c ≠ '\n' := by
  induction s with
  | nil =>
    simp only [searchFrom, matchAt_iff]
    constructor
    · rintro ⟨w, b, h, hw⟩; exact ⟨[], w, b, by simpa using h, hw⟩
    · rintro ⟨a, w, b, h, hw⟩
      have ha : a = [] := by
        have := congrArg List.length h
        simp only [List.length_nil, List.length_append] at this
        exact List.length_eq_zero.mp (by omega)
      subst ha
      exact ⟨w, b, by simpa using h, hw⟩
  | cons c cs ih =>
    simp only [searchFrom, Bool.or_eq_true, matchAt_iff, ih]
    constructor
    · rintro (⟨w, b, h, hw⟩ | ⟨a, w, b, h, hw⟩)
      · exact ⟨[], w, b, by simpa using h, hw⟩
      · exact ⟨c :: a, w, b, by simp [h], hw⟩
    · rintro ⟨a, w, b, h, hw⟩
      cases a with
      | nil => exact Or.inl ⟨w, b, by simpa using h, hw⟩
      | cons x a =>
        simp only [List.cons_append, List.cons.injEq] at h
        exact Or.inr ⟨a, w, b, h.2, hw⟩

theorem MatchString_iff (re : Regexp) (s : String) :
    re.MatchString s = true ↔
      ∃ a w b, s.data = a ++ (re.lead ++ (w ++ (re.close ++ b))) ∧ ∀ c ∈ w, c ≠ '\n' :=
  searchFrom_iff re s.data

/-! ## Lemmas on the locator -/

theorem scanMethod_first (fileLines : List String) (m lineNum : Nat)
    (h : FirstMethodLine fileLines m) : scanMethod lineNum fileLines = lineNum + m + 1 := by
  induction fileLines generalizing m lineNum with
  | nil => exact absurd h.1 (by simp)
  | cons line rest ih =>
    obtain ⟨hm, hmatch, hfirst⟩ := h
    cases m with
    | zero =>
      have : methodExp.MatchString line = true := by simpa using hmatch
      simp [scanMethod, this]
    | succ m =>
      have h0 : methodExp.MatchString line = false := by simpa using hfirst 0 (by omega)
      have hrest : FirstMethodLine rest m := by
        refine ⟨by simpa using hm, by simpa using hmatch, fun j hj => ?_⟩
        simpa using hfirst (j + 1) (by omega)
      simp [scanMethod, h0, ih m (lineNum + 1) hrest]
      omega

theorem scanMethod_none (fileLines : List String) (lineNum : Nat)
    (h : ∀ line ∈ fileLines, methodExp.MatchString line = false) :
    scanMethod lineNum fileLines = lineNum + fileLines.length := by
  induction fileLines generalizing lineNum with
  | nil => simp [scanMethod]
  | cons line rest ih =>
    have h0 : methodExp.MatchString line = false := h line (by simp)
    simp [scanMethod, h0, ih (lineNum + 1) (fun l hl => h l (by simp [hl]))]
    omega

theorem scanMethod_le (fileLines : List String) (lineNum : Nat) :
    scanMethod lineNum fileLines ≤ lineNum + fileLines.length := by
  induction fileLines generalizing lineNum with
  | nil => simp [scanMethod]
  | cons line rest ih =>
    simp only [scanMethod, List.length_cons]
    split
    · omega
    · have := ih (lineNum + 1); omega

theorem scanConstructor_nearest (fileLines : List String) (n c : Nat) (hc : c < n)
    (hmatch : constructorExp.MatchString (fileLines.getD c "") = true)
    (hnear : ∀ j, j < n → c < j → constructorExp.MatchString (fileLines.getD j "") = false) :
    scanConstructor fileLines n = ((c : Int) + 1, none) := by
  induction n with
  | zero => omega
  | succ k ih =>
    by_cases hck : c = k
    · subst hck; rw [scanConstructor, if_pos hmatch]
    · have hk : constructorExp.MatchString (fileLines.getD k "") = false :=
        hnear k (by omega) (by omega)
      simp only [scanConstructor, hk]
      exact ih (by omega) (fun j hj hcj => hnear j (by omega) hcj)

theorem scanConstructor_none (fileLines : List String) (n : Nat)
    (h : ∀ j, j < n → constructorExp.MatchString (fileLines.getD j "") = false) :
    scanConstructor fileLines n = (0, some errNotFound) := by
  induction n with
  | zero => rfl
  | succ k ih =>
    simp only [scanConstructor, h k (by omega)]
    exact ih (fun j hj => h j (by omega))

theorem scanConstructor_bounds (fileLines : List String) (n : Nat) :
    0 ≤ (scanConstructor fileLines n).1 ∧ (scanConstructor fileLines n).1 ≤ (n : Int) := by
  induction n with
  | zero => simp [scanConstructor]
  | succ k ih =>
    simp only [scanConstructor]
    split
    · constructor <;> simp only [] <;> omega
    · constructor
      · exact ih.1
      · have := ih.2; push_cast; omega

theorem findCoolClassConstructor_bounds (fileLines : List String) :
    0 ≤ (findCoolClassConstructor fileLines).1 ∧
      (findCoolClassConstructor fileLines).1 ≤ (fileLines.length : Int) := by
  have h := scanConstructor_bounds fileLines (scanMethod 0 fileLines)
  have h2 := scanMethod_le fileLines 0
  unfold findCoolClassConstructor
  constructor
  · exact h.1
  · have := h.2; omega

theorem findCoolClassConstructor_found (fileLines : List String) (m c : Nat)
    (hm : FirstMethodLine fileLines m) (hc : NearestConstructor fileLines m c) :
    findCoolClassConstructor fileLines = ((c : Int) + 1, none) := by
  unfold findCoolClassConstructor
  rw [scanMethod_first fileLines m 0 hm]
  exact scanConstructor_nearest fileLines (0 + m + 1) c (by have := hc.1; omega) hc.2.1
    (fun j hj hcj => hc.2.2 j (by omega) hcj)

theorem findCoolClassConstructor_no_method (fileLines : List String)
    (h : ∀ line ∈ fileLines, methodExp.MatchString line = false) :
    findCoolClassConstructor fileLines = scanConstructor fileLines fileLines.length := by
  unfold findCoolClassConstructor
  rw [scanMethod_none fileLines 0 h, Nat.zero_add]

theorem findCoolClassConstructor_no_constructor (fileLines : List String) (m : Nat)
    (hm : FirstMethodLine fileLines m)
    (h : ∀ j, j ≤ m → constructorExp.MatchString (fileLines.getD j "") = false) :
    findCoolClassConstructor fileLines = (0, some errNotFound) := by
  unfold findCoolClassConstructor
  rw [scanMethod_first fileLines m 0 hm]
  exact scanConstructor_none fileLines (0 + m + 1) (fun j hj => h j (by omega))

theorem scanConstructor_error (fileLines : List String) (n : Nat)
    (h : (scanConstructor fileLines n).2 ≠ none) : (scanConstructor fileLines n).1 = 0 := by
  induction n with
  | zero => rfl
  | succ k ih =>
    simp only [scanConstructor] at h ⊢
    split
    · rename_i hmatch
      rw [if_pos hmatch] at h
      exact absurd rfl h
    · rename_i hmatch
      rw [if_neg hmatch] at h
      exact ih h

/-! ## Lemmas on `insertAtPos` -/

theorem set_at_length (a b : List String) (x v : String) :
    (a ++ x :: b).set a.length v = a ++ v :: b := by
  induction a with
  | nil => rfl
  | cons y a ih => simp [ih]

theorem insertAtPos_inside (grow : Nat → Nat → Nat) (arr : Slice) (idx : Nat) (val : String)
    (h : idx < arr.elems.length ∨ (idx = arr.elems.length ∧ 0 < arr.spare.length)) :
    insertAtPos grow arr idx val
      = some ⟨arr.elems.take idx ++ val :: arr.elems.drop idx, spareAfter grow arr⟩ := by
  obtain ⟨elems, spare⟩ := arr
  simp only at h
  have h1 : (0 : Int) ≤ (idx : Int) + 1 ∧
      (idx : Int) + 1 ≤ ((elems.length + spare.length : Nat) : Int) := by
    constructor <;> omega
  have h2 : (0 : Int) ≤ (idx : Int) ∧ (idx : Int) ≤ ((elems.length : Nat) : Int) := by
    constructor <;> omega
  have h3 : (0 : Int) ≤ (idx : Int) ∧ (idx : Int) <
      (((List.take (idx + 1) (elems ++ spare) ++ List.drop idx elems).length : Nat) : Int) := by
    simp only [List.length_append, List.length_take, List.length_drop]
    constructor <;> omega
  have e1 : ((idx : Int) + 1).toNat = idx + 1 := by omega
  have e2 : (idx : Int).toNat = idx := by omega
  have hlen : (List.take (idx + 1) (elems ++ spare)).length = idx + 1 := by
    simp only [List.length_take, List.length_append]; omega
  have hbody : (List.take (idx + 1) (elems ++ spare) ++ List.drop idx elems).set idx val
      = List.take idx elems ++ val :: List.drop idx elems := by
    rcases h with h | ⟨h, hs⟩
    · rw [List.take_append_of_le_length (by omega), List.take_succ,
        List.getElem?_eq_getElem h]
      simp only [Option.toList, List.append_assoc, List.singleton_append]
      have := set_at_length (List.take idx elems) (List.drop idx elems) elems[idx] val
      rwa [List.length_take, Nat.min_eq_left (by omega)] at this
    · subst h
      cases spare with
      | nil => simp at hs
      | cons x sp =>
        have : List.take (elems.length + 1) (elems ++ x :: sp) = elems ++ [x] := by
          rw [List.take_append_eq_append_take]; simp
        rw [this]
        have := set_at_length elems [] x val
        simp [this]
  by_cases hs : 0 < spare.length
  · have hfit : (List.drop idx elems).length
        ≤ (List.drop (idx + 1) (elems ++ spare)).length := by
      simp only [List.length_drop, List.length_append]; omega
    have hsp : List.drop (List.drop idx elems).length (List.drop (idx + 1) (elems ++ spare))
        = List.drop 1 spare := by
      rw [List.drop_drop, List.length_drop]
      have : idx + 1 + (elems.length - idx) = elems.length + 1 := by omega
      rw [this, ← List.drop_drop, List.drop_left]
    simp only [insertAtPos, Slice.sliceHigh, Slice.sliceLow, Slice.append, Slice.setIndex,
      Slice.len, Slice.cap, spareAfter, if_pos h1, if_pos h2, e1, e2,
      Option.bind_eq_bind, Option.some_bind, Option.bind, if_pos hfit, if_pos hs, hsp,
      if_pos h3, hbody]
  · have hfit : ¬ (List.drop idx elems).length
        ≤ (List.drop (idx + 1) (elems ++ spare)).length := by
      simp only [List.length_drop, List.length_append]; omega
    have hcap : (List.take (idx + 1) (elems ++ spare)).length
        + (List.drop (idx + 1) (elems ++ spare)).length = elems.length + spare.length := by
      simp only [List.length_take, List.length_drop, List.length_append]; omega
    have hnew : (List.take (idx + 1) (elems ++ spare)).length + (List.drop idx elems).length
        = elems.length + 1 := by
      simp only [hlen, List.length_drop]; omega
    simp only [insertAtPos, Slice.sliceHigh, Slice.sliceLow, Slice.append, Slice.setIndex,
      Slice.len, Slice.cap, spareAfter, if_pos h1, if_pos h2, e1, e2,
      Option.bind_eq_bind, Option.some_bind, Option.bind, if_neg hfit, if_neg hs, hcap, hnew,
      if_pos h3, hbody]

theorem insertAtPos_outside (grow : Nat → Nat → Nat) (arr : Slice) (idx : Int) (val : String)
    (h : idx < 0 ∨ (arr.elems.length : Int) < idx ∨
      (idx = arr.elems.length ∧ arr.spare = [])) :
    insertAtPos grow arr idx val = none := by
  obtain ⟨elems, spare⟩ := arr
  simp only at h
  by_cases hhi : 0 ≤ idx + 1 ∧ idx + 1 ≤ ((elems.length + spare.length : Nat) : Int)
  · have hlo : ¬ (0 ≤ idx ∧ idx ≤ ((elems.length : Nat) : Int)) := by
      rcases h with h | h | ⟨h, hs⟩
      · omega
      · omega
      · subst hs; simp at hhi; omega
    simp only [insertAtPos, Slice.sliceHigh, Slice.sliceLow, Slice.cap, Slice.len, if_pos hhi,
      if_neg hlo, Option.bind_eq_bind, Option.bind]
  · simp only [insertAtPos, Slice.sliceHigh, Slice.cap, if_neg hhi, Option.bind_eq_bind,
      Option.bind]

theorem insertAtPos_zero_elems (grow : Nat → Nat → Nat) (arr out : Slice) (val : String)
    (h : insertAtPos grow arr 0 val = some out) : out.elems = val :: arr.elems := by
  by_cases hin : 0 < arr.elems.length ∨ (0 = arr.elems.length ∧ 0 < arr.spare.length)
  · have := insertAtPos_inside grow arr 0 val hin
    simp only [Nat.cast_zero] at this
    rw [this] at h
    cases h
    simp
  · have hl : arr.elems.length = 0 := by omega
    have hs : arr.spare = [] := by
      have : arr.spare.length = 0 := by omega
      exact List.length_eq_zero.mp this
    have := insertAtPos_outside grow arr 0 val (Or.inr (Or.inr ⟨by simp [hl], hs⟩))
    rw [this] at h
    cases h

/-! ## Lemmas on the in-memory patch -/

theorem patchLines_some (grow : Nat → Nat → Nat) (arr : Slice) (serverPort : String) (k : Nat)
    (hk : (findCoolClassConstructor arr.elems).1 = (k : Int))
    (h : k < arr.elems.length ∨ (k = arr.elems.length ∧ 0 < arr.spare.length)) :
    patchLines grow arr serverPort
      = some ⟨script serverPort :: (arr.elems.take k ++ exposure :: arr.elems.drop k),
          spareAfter grow ⟨arr.elems.take k ++ exposure :: arr.elems.drop k,
            spareAfter grow arr⟩⟩ := by
  have hgt : (k : Int) > -1 := by omega
  have h2 := insertAtPos_inside grow
    ⟨arr.elems.take k ++ exposure :: arr.elems.drop k, spareAfter grow arr⟩ 0
    (script serverPort) (Or.inl (by simp))
  simp only [Nat.cast_zero, List.take_zero, List.drop_zero, List.nil_append] at h2
  unfold patchLines
  rw [show findCoolClassConstructor arr.elems
    = ((k : Int), (findCoolClassConstructor arr.elems).2) from by rw [← hk]]
  simp only [if_pos hgt, insertAtPos_inside grow arr k exposure h, Option.bind_eq_bind,
    Option.bind, h2]

theorem patchLines_none (grow : Nat → Nat → Nat) (arr : Slice) (serverPort : String)
    (hk : (findCoolClassConstructor arr.elems).1 = (arr.elems.length : Int))
    (hs : arr.spare = []) : patchLines grow arr serverPort = none := by
  have hgt : (arr.elems.length : Int) > -1 := by omega
  unfold patchLines
  rw [show findCoolClassConstructor arr.elems
    = ((arr.elems.length : Int), (findCoolClassConstructor arr.elems).2) from by rw [← hk]]
  simp only [if_pos hgt, insertAtPos_outside grow arr arr.elems.length exposure
    (Or.inr (Or.inr ⟨rfl, hs⟩)), Option.bind_eq_bind, Option.bind]

theorem patchLines_not_found (grow : Nat → Nat → Nat) (arr : Slice) (serverPort : String)
    (herr : (findCoolClassConstructor arr.elems).2 ≠ none)
    (h : 0 < arr.elems.length ∨ 0 < arr.spare.length) :
    ∃ out, patchLines grow arr serverPort = some out ∧
      out.elems = script serverPort :: exposure :: arr.elems := by
  have hk : (findCoolClassConstructor arr.elems).1 = ((0 : Nat) : Int) :=
    scanConstructor_error arr.elems _ herr
  have hin : 0 < arr.elems.length ∨ (0 = arr.elems.length ∧ 0 < arr.spare.length) := by omega
  exact ⟨_, patchLines_some grow arr serverPort 0 hk hin, by simp⟩

theorem patchLines_head (grow : Nat → Nat → Nat) (arr out : Slice) (serverPort : String)
    (h : patchLines grow arr serverPort = some out) :
    ∃ rest, out.elems = script serverPort :: rest := by
  unfold patchLines at h
  simp only [Option.bind_eq_bind] at h
  by_cases hgt : (findCoolClassConstructor arr.elems).1 > -1
  · simp only [if_pos hgt] at h
    cases hmid : insertAtPos grow arr (findCoolClassConstructor arr.elems).1 exposure with
    | none => rw [hmid] at h; simp at h
    | some mid =>
      rw [hmid] at h
      exact ⟨mid.elems, insertAtPos_zero_elems grow mid out _ h⟩
  · simp only [if_neg hgt] at h
    exact ⟨arr.elems, insertAtPos_zero_elems grow arr out _ h⟩

/-! ## Lemmas on strings -/

theorem containsFrom_iff (substr s : List Char) :
    containsFrom substr s = true ↔ substr <:+: s := by
  induction s with
  | nil =>
    simp only [containsFrom, List.isPrefixOf_iff_prefix, List.prefix_nil, List.infix_nil]
  | cons c cs ih =>
    simp only [containsFrom, Bool.or_eq_true, List.isPrefixOf_iff_prefix, ih,
      List.infix_cons_iff]

theorem infix_dropCR (m line : List Char) (hm : ∃ x, m.getLast? = some x ∧ x ≠ '\r') :
    m <:+: dropCR line ↔ m <:+: line := by
  unfold dropCR
  split
  · rename_i h
    have hl : line.dropLast ++ ['\r'] = line := List.dropLast_append_getLast? '\r' h
    constructor
    · intro hin
      rw [← hl]
      exact List.infix_concat_iff.mpr (Or.inr hin)
    · intro hin
      rw [← hl] at hin
      rcases List.infix_concat_iff.mp hin with hsuf | hin2
      · obtain ⟨x, hx, hne⟩ := hm
        obtain ⟨s, hs⟩ := hsuf
        have h1 : (s ++ m).getLast? = some '\r' := by rw [hs]; simp
        rw [List.getLast?_append, hx] at h1
        simp only [Option.or_some, Option.some.injEq] at h1
        exact absurd h1 hne
      · exact hin2
  · exact Iff.rfl

theorem takeWhile_stop (p : Char → Bool) (l t : List Char) (x : Char)
    (hl : ∀ c ∈ l, p c = true) (hx : p x = false) : List.takeWhile p (l ++ x :: t) = l := by
  induction l with
  | nil => simp [List.takeWhile, hx]
  | cons a l ih =>
    have ha : p a = true := hl a (by simp)
    have ih2 := ih (fun c hc => hl c (by simp [hc]))
    simp only [List.cons_append, List.takeWhile_cons, ha, if_true, ih2]

theorem byteLen_append (a b : List Char) : byteLen (a ++ b) = byteLen a + byteLen b := by
  simp [byteLen]

theorem byteLen_replicate (n : Nat) : byteLen (List.replicate n 'a') = n := by
  have h : Char.utf8Size 'a' = 1 := by decide
  simp [byteLen, h]

theorem scanFirstLine_contains (content : String) :
    stringsContains (scanFirstLine content) patchMarker
      = (decide (byteLen (firstLineOf content).data < maxScanTokenSize) &&
          stringsContains (firstLineOf content) patchMarker) := by
  unfold scanFirstLine firstLineOf
  simp only
  by_cases hlen : byteLen (List.takeWhile (fun c => c != '\n') content.data) < maxScanTokenSize
  · have h := infix_dropCR patchMarker.data
      (List.takeWhile (fun c => c != '\n') content.data) ⟨'t', by decide, by decide⟩
    rw [← containsFrom_iff, ← containsFrom_iff] at h
    rw [if_pos hlen, decide_eq_true hlen, Bool.true_and]
    exact Bool.eq_iff_iff.mpr h
  · rw [if_neg hlen, decide_eq_false hlen, Bool.false_and]
    decide

theorem stringsJoin_head (a : String) (rest : List String) :
    ∃ t, (stringsJoin (a :: rest) "\n").data = a.data ++ t := by
  cases rest with
  | nil => exact ⟨[], by simp [stringsJoin]⟩
  | cons b rest =>
    exact ⟨"\n".data ++ (stringsJoin (b :: rest) "\n").data, by
      simp [stringsJoin, String.data_append]⟩

theorem script_data (serverPort : String) :
    ∃ t, (script serverPort).data = markerLine.data ++ '\n' :: t := by
  refine ⟨scriptBeforePort.data.tail ++ serverPort.data ++ scriptAfterPort.data, ?_⟩
  have h : scriptBeforePort.data = '\n' :: scriptBeforePort.data.tail := by decide
  simp only [script, String.data_append, List.append_assoc]
  rw [h]
  simp

theorem marker_first_line (t : List Char) :
    firstLineOf ⟨markerLine.data ++ '\n' :: t⟩ = markerLine ∧
      scanFirstLine ⟨markerLine.data ++ '\n' :: t⟩ = markerLine := by
  have htw : List.takeWhile (fun c => c != '\n') (markerLine.data ++ '\n' :: t)
      = markerLine.data :=
    takeWhile_stop _ _ _ _ (by decide) (by decide)
  have hlen : byteLen markerLine.data < maxScanTokenSize := by decide
  have hcr : dropCR markerLine.data = markerLine.data := by decide
  constructor
  · simp only [firstLineOf, htw]
  · simp only [scanFirstLine, htw, if_pos hlen, hcr]

theorem patchLines_join (grow : Nat → Nat → Nat) (arr out : Slice) (serverPort : String)
    (h : patchLines grow arr serverPort = some out) :
    ∃ t, stringsJoin out.elems "\n" = ⟨markerLine.data ++ '\n' :: t⟩ := by
  obtain ⟨rest, hrest⟩ := patchLines_head grow arr out serverPort h
  obtain ⟨t1, ht1⟩ := stringsJoin_head (script serverPort) rest
  obtain ⟨t2, ht2⟩ := script_data serverPort
  refine ⟨t2 ++ t1, String.ext ?_⟩
  rw [hrest, ht1, ht2]
  simp

/-! ## Lemmas on paths and files -/

theorem AddExtPrefix_length (p extPrefix : String) :
    p.data.length + extPrefix.data.length ≤ (AddExtPrefix p extPrefix).data.length := by
  simp only [AddExtPrefix, List.length_append, List.length_take, List.length_reverse]
  omega

theorem AddExtPrefix_ne_self (p extPrefix : String) (h : 0 < extPrefix.data.length) :
    AddExtPrefix p extPrefix ≠ p := by
  intro heq
  have := AddExtPrefix_length p extPrefix
  rw [heq] at this
  omega

theorem AddExtPrefix_ne (p a b : String) (h : a.data.length ≠ b.data.length) :
    AddExtPrefix p a ≠ AddExtPrefix p b := by
  intro heq
  have := congrArg (fun s => s.data.length) heq
  simp only [AddExtPrefix, List.length_append, List.length_take, List.length_reverse] at this
  omega

theorem orig_ne_script (p : String) : AddExtPrefix p ".orig" ≠ p :=
  AddExtPrefix_ne_self p ".orig" (by decide)

theorem unmin_ne_script (p : String) : AddExtPrefix p ".unmin" ≠ p :=
  AddExtPrefix_ne_self p ".unmin" (by decide)

theorem unmin_ne_orig (p : String) : AddExtPrefix p ".unmin" ≠ AddExtPrefix p ".orig" :=
  AddExtPrefix_ne p ".unmin" ".orig" (by decide)

theorem FS.write_same (fs : FS) (p c : String) : fs.write p c p = some c := by
  simp [FS.write]

theorem FS.write_other (fs : FS) (p c q : String) (h : q ≠ p) : fs.write p c q = fs q := by
  simp [FS.write, h]

theorem checkForOriginal_eq (fs : FS) (scriptPath content : String)
    (h : fs scriptPath = some content) :
    checkForOriginal fs scriptPath =
      if stringsContains (scanFirstLine content) patchMarker then
        Copy fs (AddExtPrefix scriptPath ".orig") scriptPath
      else (fs, none) := by
  unfold checkForOriginal
  rw [h]
  simp only [patchMarker]
  split
  · rcases hc : Copy fs (AddExtPrefix scriptPath ".orig") scriptPath with ⟨fs1, _ | e⟩ <;> rfl
  · rfl

theorem checkForOriginal_files (fs : FS) (scriptPath content : String)
    (h : fs scriptPath = some content) :
    (checkForOriginal fs scriptPath).1 scriptPath = some (pristine fs scriptPath content) ∧
      ∀ q, q ≠ scriptPath → (checkForOriginal fs scriptPath).1 q = fs q := by
  rw [checkForOriginal_eq fs scriptPath content h]
  unfold pristine
  by_cases hm : stringsContains (scanFirstLine content) patchMarker = true
  · simp only [if_pos hm, Copy]
    cases hb : fs (AddExtPrefix scriptPath ".orig") with
    | none => exact ⟨h, fun q _ => rfl⟩
    | some b =>
      exact ⟨FS.write_same fs scriptPath b, fun q hq => FS.write_other fs scriptPath b q hq⟩
  · rw [if_neg hm, if_neg hm]
    exact ⟨h, fun q _ => rfl⟩

theorem checkForOriginal_missing (fs : FS) (scriptPath : String) (h : fs scriptPath = none) :
    (checkForOriginal fs scriptPath).1 = fs := by
  unfold checkForOriginal
  rw [h]

theorem patchCoolClass_files (env : Env) (fs : FS) (unminPath origPath serverPort u x : String)
    (hu : fs unminPath = some u) (hx : fs origPath = some x) :
    (patchCoolClass env fs unminPath origPath serverPort).1 =
      match patchedContent env serverPort u with
      | some p => fs.write origPath p
      | none => fs := by
  unfold patchCoolClass patchedContent
  rw [hu]
  simp only
  cases env.FileLines u with
  | error e => rfl
  | ok fileLines =>
    simp only
    cases patchLines env.grow fileLines serverPort with
    | none => rfl
    | some out => simp only [hx, Option.map_some']

theorem PatchJS_missing (env : Env) (fs : FS) (steamuiPath debugPort serverPort : String)
    (h : fs (env.pathJoin steamuiPath libraryRootSP) = none) :
    (PatchJS env fs steamuiPath debugPort serverPort).1 = fs := by
  have hg := checkForOriginal_missing fs _ h
  unfold PatchJS
  simp only
  rcases hck : checkForOriginal fs (env.pathJoin steamuiPath libraryRootSP) with ⟨fs0, e⟩
  rw [hck] at hg
  simp only at hg
  subst hg
  simp only [Copy, h]

theorem PatchJS_files (env : Env) (fs : FS) (steamuiPath debugPort serverPort content : String)
    (h : fs (env.pathJoin steamuiPath libraryRootSP) = some content) :
    (PatchJS env fs steamuiPath debugPort serverPort).1 (env.pathJoin steamuiPath libraryRootSP)
        = some (contentAfterRun env serverPort
            (pristine fs (env.pathJoin steamuiPath libraryRootSP) content)) ∧
      (PatchJS env fs steamuiPath debugPort serverPort).1
          (AddExtPrefix (env.pathJoin steamuiPath libraryRootSP) ".orig")
        = some (pristine fs (env.pathJoin steamuiPath libraryRootSP) content) := by
  generalize hT : env.pathJoin steamuiPath libraryRootSP = T at h ⊢
  have hg := checkForOriginal_files fs T content h
  generalize pristine fs T content = t at hg ⊢
  have hBT := orig_ne_script T
  have hUT := unmin_ne_script T
  have hUB := unmin_ne_orig T
  unfold PatchJS
  simp only [hT]
  rcases hck : checkForOriginal fs T with ⟨fs0, e⟩
  rw [hck] at hg
  simp only at hg
  simp only [Copy, hg.1, unmin]
  have h1T : (fs0.write (AddExtPrefix T ".orig") t) T = some t := by
    rw [FS.write_other _ _ _ _ hBT.symm]; exact hg.1
  simp only [h1T, Option.some_bind, contentAfterRun]
  cases hj : env.jsBeautify t with
  | none =>
    simp only [Option.none_bind, Option.getD_none]
    exact ⟨h1T, FS.write_same _ _ _⟩
  | some u =>
    simp only [Option.some_bind]
    have h2U : ((fs0.write (AddExtPrefix T ".orig") t).write (AddExtPrefix T ".unmin") u)
        (AddExtPrefix T ".unmin") = some u := FS.write_same _ _ _
    have h2T : ((fs0.write (AddExtPrefix T ".orig") t).write (AddExtPrefix T ".unmin") u) T
        = some t := by
      rw [FS.write_other _ _ _ _ hUT.symm]; exact h1T
    have h2B : ((fs0.write (AddExtPrefix T ".orig") t).write (AddExtPrefix T ".unmin") u)
        (AddExtPrefix T ".orig") = some t := by
      rw [FS.write_other _ _ _ _ hUB.symm]; exact FS.write_same _ _ _
    have hp := patchCoolClass_files env _ (AddExtPrefix T ".unmin") T serverPort u t h2U h2T
    rcases hpc : patchCoolClass env
      ((fs0.write (AddExtPrefix T ".orig") t).write (AddExtPrefix T ".unmin") u)
      (AddExtPrefix T ".unmin") T serverPort with ⟨fs3, ex⟩
    rw [hpc] at hp
    simp only at hp
    have hfs : (match (fs3, ex) with
        | (fs, Exit.nil) => (fs, reloadClient env debugPort)
        | (fs, e) => (fs, e)).1 = fs3 := by
      cases ex <;> rfl
    rw [hfs, hp]
    cases hpat : patchedContent env serverPort u with
    | none => exact ⟨h2T, h2B⟩
    | some p =>
      simp only [Option.getD_some]
      exact ⟨FS.write_same _ _ _, by rw [FS.write_other _ _ _ _ hBT]; exact h2B⟩

theorem patchedContent_marker (env : Env) (serverPort u p : String)
    (h : patchedContent env serverPort u = some p) :
    stringsContains (scanFirstLine p) patchMarker = true := by
  unfold patchedContent at h
  cases hl : env.FileLines u with
  | error e => rw [hl] at h; cases h
  | ok fileLines =>
    rw [hl] at h
    simp only at h
    cases hp : patchLines env.grow fileLines serverPort with
    | none => rw [hp] at h; cases h
    | some out =>
      rw [hp] at h
      simp only [Option.map_some', Option.some.injEq] at h
      obtain ⟨t, ht⟩ := patchLines_join env.grow fileLines out serverPort hp
      rw [← h, ht, (marker_first_line t).2]
      decide

theorem contentAfterRun_cases (env : Env) (serverPort content : String) :
    contentAfterRun env serverPort content = content ∨
      stringsContains (scanFirstLine (contentAfterRun env serverPort content)) patchMarker
        = true := by
  unfold contentAfterRun
  cases hj : env.jsBeautify content with
  | none => exact Or.inl rfl
  | some u =>
    simp only [Option.some_bind]
    cases hp : patchedContent env serverPort u with
    | none => exact Or.inl rfl
    | some p => exact Or.inr (patchedContent_marker env serverPort u p hp)

theorem pristine_of_intact (fs : FS) (scriptPath original t : String)
    (hB : fs (AddExtPrefix scriptPath ".orig") = some original)
    (ht : t = original ∨ stringsContains (scanFirstLine t) patchMarker = true) :
    pristine fs scriptPath t = original := by
  unfold pristine
  by_cases hm : stringsContains (scanFirstLine t) patchMarker = true
  · rw [if_pos hm, hB]; rfl
  · rw [if_neg hm]
    rcases ht with ht | ht
    · exact ht
    · exact absurd ht hm

theorem BackupIntact_after (env : Env) (fs : FS)
    (steamuiPath debugPort serverPort content original : String)
    (h : fs (env.pathJoin steamuiPath libraryRootSP) = some content)
    (hp : pristine fs (env.pathJoin steamuiPath libraryRootSP) content = original) :
    BackupIntact (PatchJS env fs steamuiPath debugPort serverPort).1
      (env.pathJoin steamuiPath libraryRootSP) original := by
  have hf := PatchJS_files env fs steamuiPath debugPort serverPort content h
  rw [hp] at hf
  exact ⟨hf.2, _, hf.1, contentAfterRun_cases env serverPort original⟩

theorem BackupIntact_step (env : Env) (fs : FS)
    (steamuiPath debugPort serverPort original : String)
    (h : BackupIntact fs (env.pathJoin steamuiPath libraryRootSP) original) :
    BackupIntact (PatchJS env fs steamuiPath debugPort serverPort).1
      (env.pathJoin steamuiPath libraryRootSP) original := by
  obtain ⟨hB, t, hT, ht⟩ := h
  exact BackupIntact_after env fs steamuiPath debugPort serverPort t original hT
    (pristine_of_intact fs _ original t hB ht)

theorem BackupIntact_runs (env : Env) (steamuiPath original : String)
    (runs : List (String × String)) (fs : FS)
    (h : BackupIntact fs (env.pathJoin steamuiPath libraryRootSP) original) :
    BackupIntact (patchRuns env steamuiPath fs runs)
      (env.pathJoin steamuiPath libraryRootSP) original := by
  induction runs generalizing fs with
  | nil => exact h
  | cons r rest ih =>
    obtain ⟨debugPort, serverPort⟩ := r
    exact ih _ (BackupIntact_step env fs steamuiPath debugPort serverPort original h)

/-- What `checkForOriginal` does on a readable script, by cases on its first
line: shorter than the token limit of the scanner and holding the marker, the
backup is copied over the script; without the marker, the files are left; of
the size of the token limit or longer, the files are left whatever the line
holds. -/
theorem checkForOriginal_cases (fs : FS) (scriptPath content : String)
    (h : fs scriptPath = some content) :
    (byteLen (firstLineOf content).data < maxScanTokenSize →
      stringsContains (firstLineOf content) "patched by crankshaft" = true →
      checkForOriginal fs scriptPath = Copy fs (AddExtPrefix scriptPath ".orig") scriptPath ∧
      ∀ b, fs (AddExtPrefix scriptPath ".orig") = some b →
        (checkForOriginal fs scriptPath).1 scriptPath = some b) ∧
    (stringsContains (firstLineOf content) "patched by crankshaft" = false →
      checkForOriginal fs scriptPath = (fs, none)) ∧
    (maxScanTokenSize ≤ byteLen (firstLineOf content).data →
      checkForOriginal fs scriptPath = (fs, none)) := by
  have heq := checkForOriginal_eq fs scriptPath content h
  have hc := scanFirstLine_contains content
  refine ⟨fun hlen hm => ?_, fun hm => ?_, fun hlen => ?_⟩
  · have hm2 : stringsContains (firstLineOf content) patchMarker = true := hm
    rw [decide_eq_true hlen, hm2] at hc
    rw [hc] at heq
    refine ⟨heq, fun b hb => ?_⟩
    rw [heq]
    simp only [Copy, hb]
    exact FS.write_same fs scriptPath b
  · have hm2 : stringsContains (firstLineOf content) patchMarker = false := hm
    rw [hm2, Bool.and_false] at hc
    rw [hc] at heq
    exact heq
  · have hnot : ¬ byteLen (firstLineOf content).data < maxScanTokenSize := by omega
    rw [decide_eq_false hnot, Bool.false_and] at hc
    rw [hc] at heq
    exact heq


/-! ## The anchor locator: what it returns -/

/-- Claim C1, as amended: when the buffer has a first line `m` matching the
method pattern and some line at or above it matches the constructor pattern,
`findCoolClassConstructor` returns a nil error and `c + 1`, where `c` is the
zero-based index of the nearest constructor line at or above line `m`: the
one-based number of that line, which is the index of the line after it. -/
theorem findCoolClassConstructor_nearest (fileLines : List String) (m : Nat)
    (hm : FirstMethodLine fileLines m)
    (habove : ∃ j, j ≤ m ∧ constructorExp.MatchString (fileLines.getD j "") = true) :
    ∃ c, NearestConstructor fileLines m c ∧
      findCoolClassConstructor fileLines = ((c : Int) + 1, none) := by
  obtain ⟨j, hj, hP⟩ := habove
  let P : Nat → Prop := fun i => constructorExp.MatchString (fileLines.getD i "") = true
  have hspec : P (Nat.findGreatest P m) := Nat.findGreatest_spec (P := P) hj hP
  have hnear : NearestConstructor fileLines m (Nat.findGreatest P m) := by
    refine ⟨Nat.findGreatest_le m, hspec, fun i him hci => ?_⟩
    have := Nat.findGreatest_is_greatest (P := P) hci him
    simpa [P] using this
  exact ⟨_, hnear, findCoolClassConstructor_found fileLines m _ hm hnear⟩

/-- Claim C1, witness: the eight-line buffer of the scenario, whose method line
is line 4 and whose constructor line is line 1. -/
theorem findCoolClassConstructor_nearest_witness :
    FirstMethodLine fooClass 4 ∧
      (∃ j, j ≤ 4 ∧ constructorExp.MatchString (fooClass.getD j "") = true) ∧
      ∃ c, NearestConstructor fooClass 4 c ∧
        findCoolClassConstructor fooClass = ((c : Int) + 1, none) :=
  ⟨by decide, ⟨1, by decide, by decide⟩,
    findCoolClassConstructor_nearest fooClass 4 (by decide) ⟨1, by decide, by decide⟩⟩

/-- Claim C1, counterexample: in the eight-line buffer the first method line is
line 4 and the nearest constructor line above it is line 1, yet the function
returns 2 and not the index 1 of the constructor line. -/
theorem findCoolClassConstructor_not_constructor_index :
    FirstMethodLine fooClass 4 ∧ NearestConstructor fooClass 4 1 ∧ 1 < 4 ∧
      findCoolClassConstructor fooClass = (2, none) ∧
      findCoolClassConstructor fooClass ≠ (1, none) := by
  decide

/-- Claim C4, the code at the failing input: no line of the buffer matches the
method pattern, and `findCoolClassConstructor` still returns a nil error, with
the number of the last constructor line of the buffer. -/
theorem findCoolClassConstructor_without_method :
    (∀ line ∈ constructorOnly, methodExp.MatchString line = false) ∧
      findCoolClassConstructor constructorOnly = (2, none) := by
  decide

/-! ## The two insertions -/

/-- Claim C5: for an index `a` inside the buffer, inserting the exposure line at
`a` and then the bootstrap `S` at 0 succeeds and gives
`[S] ++ lines[0..a) ++ [exposure] ++ lines[a..n)`: length `n + 2`, the exposure
line at index `a + 1`, the original lines all present in their order. -/
theorem insertAtPos_twice (grow : Nat → Nat → Nat) (arr : Slice) (a : Nat) (S : String)
    (ha : a < arr.elems.length) :
    ∃ mid out, insertAtPos grow arr a exposure = some mid ∧
      insertAtPos grow mid 0 S = some out ∧
      out.elems = [S] ++ arr.elems.take a ++ [exposure] ++ arr.elems.drop a ∧
      out.elems.length = arr.elems.length + 2 ∧
      out.elems[a + 1]? = some exposure ∧
      List.Sublist arr.elems out.elems := by
  have h1 := insertAtPos_inside grow arr a exposure (Or.inl ha)
  have h2 := insertAtPos_inside grow
    ⟨arr.elems.take a ++ exposure :: arr.elems.drop a, spareAfter grow arr⟩ 0 S
    (Or.inl (by simp))
  simp only [Nat.cast_zero, List.take_zero, List.drop_zero, List.nil_append] at h2
  refine ⟨_, _, h1, h2, by simp, ?_, ?_, ?_⟩
  · simp only [List.length_cons, List.length_append, List.length_take, List.length_drop]
    omega
  · have hl : (arr.elems.take a).length = a := by
      rw [List.length_take]; omega
    rw [List.getElem?_cons_succ, List.getElem?_append_right (by omega), hl]
    simp
  · have : List.Sublist (arr.elems.take a ++ arr.elems.drop a)
        (S :: (arr.elems.take a ++ exposure :: arr.elems.drop a)) :=
      List.Sublist.cons _ (List.Sublist.append (List.Sublist.refl _)
        (List.Sublist.cons _ (List.Sublist.refl _)))
    rwa [List.take_append_drop] at this

/-- Claim C5, witness: ten lines and the anchor at index 5; the exposure line
lands at index 6. -/
theorem insertAtPos_twice_witness :
    5 < (Slice.mk tenLines []).elems.length ∧
    ∃ mid out, insertAtPos growExact ⟨tenLines, []⟩ (5 : Nat) exposure = some mid ∧
      insertAtPos growExact mid 0 "S" = some out ∧
      out.elems = ["S"] ++ tenLines.take 5 ++ [exposure] ++ tenLines.drop 5 ∧
      out.elems.length = tenLines.length + 2 ∧
      out.elems[5 + 1]? = some exposure ∧
      List.Sublist tenLines out.elems :=
  ⟨by decide, insertAtPos_twice growExact ⟨tenLines, []⟩ 5 "S" (by decide)⟩

/-- Claim C2, as amended: when the nearest constructor line at or above the
first method line is line `c`, and that line is not the last line of the buffer
(or the slice has spare capacity), the final buffer of `patchCoolClass` has the
bootstrap script as element 0 and `window.coolClass = this;` as element `c + 2`,
right below the constructor line, which is element `c + 1`. -/
theorem patchLines_found (grow : Nat → Nat → Nat) (arr : Slice) (serverPort : String)
    (m c : Nat) (hm : FirstMethodLine arr.elems m) (hc : NearestConstructor arr.elems m c)
    (hroom : c + 1 < arr.elems.length ∨ 0 < arr.spare.length) :
    ∃ out, patchLines grow arr serverPort = some out ∧
      out.elems = script serverPort ::
        (arr.elems.take (c + 1) ++ exposure :: arr.elems.drop (c + 1)) ∧
      out.elems[0]? = some (script serverPort) ∧
      out.elems[c + 1]? = arr.elems[c]? ∧
      out.elems[c + 2]? = some exposure := by
  have hfound := findCoolClassConstructor_found arr.elems m c hm hc
  have hcm : c + 1 ≤ arr.elems.length := by have := hm.1; have := hc.1; omega
  have hk : (findCoolClassConstructor arr.elems).1 = ((c + 1 : Nat) : Int) := by
    rw [hfound]; push_cast; rfl
  have hin : c + 1 < arr.elems.length ∨ (c + 1 = arr.elems.length ∧ 0 < arr.spare.length) := by
    omega
  have hl : (arr.elems.take (c + 1)).length = c + 1 := by
    rw [List.length_take]; omega
  refine ⟨_, patchLines_some grow arr serverPort (c + 1) hk hin, rfl, by simp, ?_, ?_⟩
  · rw [List.getElem?_cons_succ, List.getElem?_append_left (by omega), List.getElem?_take]
    simp
  · rw [List.getElem?_cons_succ, List.getElem?_append_right (by omega), hl]
    simp

/-- Claim C2, witness: the eight-line buffer of the scenario with port `1234`. -/
theorem patchLines_found_witness :
    FirstMethodLine (Slice.mk fooClass []).elems 4 ∧
    NearestConstructor (Slice.mk fooClass []).elems 4 1 ∧
    (1 + 1 < (Slice.mk fooClass []).elems.length ∨ 0 < (Slice.mk fooClass []).spare.length) ∧
    ∃ out, patchLines growExact ⟨fooClass, []⟩ "1234" = some out ∧
      out.elems = script "1234" :: (fooClass.take (1 + 1) ++ exposure :: fooClass.drop (1 + 1)) ∧
      out.elems[0]? = some (script "1234") ∧
      out.elems[1 + 1]? = fooClass[1]? ∧
      out.elems[1 + 2]? = some exposure :=
  ⟨by decide, by decide, by decide,
    patchLines_found growExact ⟨fooClass, []⟩ "1234" 4 1 (by decide) (by decide) (by decide)⟩

/-- Claim C2, counterexample: in the eight-line buffer the constructor line is
line `c = 1`, and element `c + 1 = 2` of the final buffer is that constructor
line, not `window.coolClass = this;`, which is element 3. -/
theorem patchLines_exposure_not_at_succ :
    FirstMethodLine fooClass 4 ∧ NearestConstructor fooClass 4 1 ∧
    ∃ out, patchLines growExact ⟨fooClass, []⟩ "1234" = some out ∧
      out.elems[0]? = some (script "1234") ∧
      out.elems[1 + 1]? = some "  constructor(a) \x7b" ∧
      out.elems[1 + 1]? ≠ some exposure ∧
      out.elems[3]? = some exposure := by
  refine ⟨by decide, by decide, _, patchLines_some growExact ⟨fooClass, []⟩ "1234" 2
    (by decide) (by decide), ?_, ?_, ?_, ?_⟩ <;> decide

/-- Claim C3, the code at the failing input: the locator reports not found on
the two-line buffer, which does not hold the exposure line, and the final buffer
nevertheless holds `window.coolClass = this;`, at index 1, below the bootstrap:
it has length `n + 2`, not `n + 1`. -/
theorem patchLines_not_found_inserts (grow : Nat → Nat → Nat) (serverPort : String) :
    findCoolClassConstructor noAnchor = (0, some errNotFound) ∧
    exposure ∉ noAnchor ∧
    (patchLines grow ⟨noAnchor, []⟩ serverPort).map Slice.elems
      = some [script serverPort, exposure, "class Foo \x7b", "\x7d"] ∧
    (patchLines grow ⟨noAnchor, []⟩ serverPort).map Slice.elems
      ≠ some (script serverPort :: noAnchor) := by
  have h := patchLines_some grow ⟨noAnchor, []⟩ serverPort 0 (by decide) (Or.inl (by decide))
  refine ⟨by decide, by decide, ?_, ?_⟩
  · rw [h]; rfl
  · rw [h]
    intro hne
    have := congrArg (Option.map List.length) hne
    simp [noAnchor] at this

/-- Claim C10, the code at the failing inputs: on the empty buffer the first
`insertAtPos` is called with index 0 on a slice of length 0, and on a buffer
whose last line matches the constructor pattern (with or without a method line)
it is called with the index `len(fileLines)`; with no spare capacity the slice
expression is out of range and the call panics. -/
theorem insertAtPos_index_reaches_length (grow : Nat → Nat → Nat) (serverPort : String) :
    ((findCoolClassConstructor []).1 = (([] : List String).length : Int) ∧
      patchLines grow ⟨[], []⟩ serverPort = none) ∧
    ((findCoolClassConstructor constructorLast).1 = (constructorLast.length : Int) ∧
      insertAtPos grow ⟨constructorLast, []⟩ (findCoolClassConstructor constructorLast).1
        exposure = none ∧
      patchLines grow ⟨constructorLast, []⟩ serverPort = none) ∧
    (FirstMethodLine bothOnLastLine 1 ∧
      (findCoolClassConstructor bothOnLastLine).1 = (bothOnLastLine.length : Int) ∧
      patchLines grow ⟨bothOnLastLine, []⟩ serverPort = none) := by
  refine ⟨⟨by decide, patchLines_none grow ⟨[], []⟩ serverPort (by decide) rfl⟩,
    ⟨by decide, insertAtPos_outside grow _ _ _ (Or.inr (Or.inr ⟨by decide, rfl⟩)),
      patchLines_none grow ⟨constructorLast, []⟩ serverPort (by decide) rfl⟩,
    ⟨by decide, by decide, patchLines_none grow ⟨bothOnLastLine, []⟩ serverPort (by decide) rfl⟩⟩

/-! ## The marker line -/

/-- Claim C6: whatever the buffer and the port, either `patchCoolClass` panics
in its first insertion and writes nothing (the locator returned `len(fileLines)`
and the slice has no spare capacity), or the content it writes (the final buffer
joined with newlines) has `// file patched by crankshaft` as the text before its
first newline; that is also what the scanner of `checkForOriginal` reads as its
first line, and it contains the substring `patched by crankshaft` the guard
tests for. -/
theorem patchLines_marker_first (grow : Nat → Nat → Nat) (arr : Slice) (serverPort : String) :
    (∃ out, patchLines grow arr serverPort = some out ∧
      firstLineOf (stringsJoin out.elems "\n") = "// file patched by crankshaft" ∧
      scanFirstLine (stringsJoin out.elems "\n") = "// file patched by crankshaft" ∧
      stringsContains (scanFirstLine (stringsJoin out.elems "\n")) "patched by crankshaft"
        = true) ∨
    (patchLines grow arr serverPort = none ∧
      (findCoolClassConstructor arr.elems).1 = (arr.elems.length : Int) ∧ arr.spare = []) := by
  have hb := findCoolClassConstructor_bounds arr.elems
  have hk : (findCoolClassConstructor arr.elems).1
      = (((findCoolClassConstructor arr.elems).1.toNat : Nat) : Int) :=
    (Int.toNat_of_nonneg hb.1).symm
  by_cases hin : (findCoolClassConstructor arr.elems).1.toNat < arr.elems.length ∨
      ((findCoolClassConstructor arr.elems).1.toNat = arr.elems.length ∧ 0 < arr.spare.length)
  · left
    have hs := patchLines_some grow arr serverPort _ hk hin
    obtain ⟨t, ht⟩ := patchLines_join grow arr _ serverPort hs
    have hm := marker_first_line t
    refine ⟨_, hs, ?_⟩
    rw [ht, hm.1, hm.2]
    exact ⟨rfl, rfl, by decide⟩
  · right
    have hlen : (findCoolClassConstructor arr.elems).1 = (arr.elems.length : Int) := by omega
    have hsp : arr.spare = [] := List.length_eq_zero.mp (by omega)
    exact ⟨patchLines_none grow arr serverPort hlen hsp, hlen, hsp⟩

/-! ## The guard -/

/-- The guard on two short scripts with a backup: the marker on the first line
makes it replace the script by the backup, the marker on the second line only
makes it leave the files. -/
theorem checkForOriginal_samples :
    (checkForOriginal markedFS samplePath).1 samplePath = some "original" ∧
    (checkForOriginal markedFS samplePath).2 = none ∧
    checkForOriginal laterLineFS samplePath = (laterLineFS, none) :=
  ⟨((checkForOriginal_cases markedFS samplePath "// file patched by crankshaft\nvar a;\n"
      (by decide)).1 (by decide) (by decide)).2 "original" (by decide),
    by decide,
    (checkForOriginal_cases laterLineFS samplePath
      "var a;\n// file patched by crankshaft\n" (by decide)).2.1 (by decide)⟩

/-- Claim C9, the code at the failing input: the first line of the script
contains `patched by crankshaft` and a backup exists, but the line is longer
than the token limit of the scanner; `s.Scan()` fails, its result is not
checked, the first line read is empty and `checkForOriginal` copies nothing,
where the copy would have replaced the script by the backup. -/
theorem checkForOriginal_long_first_line :
    longLineFS samplePath = some longFirstLine ∧
    stringsContains (firstLineOf longFirstLine) "patched by crankshaft" = true ∧
    longLineFS (AddExtPrefix samplePath ".orig") = some "original" ∧
    checkForOriginal longLineFS samplePath = (longLineFS, none) ∧
    (checkForOriginal longLineFS samplePath).1 samplePath = some longFirstLine ∧
    (Copy longLineFS (AddExtPrefix samplePath ".orig") samplePath).1 samplePath
      = some "original" := by
  have hT : longLineFS samplePath = some longFirstLine := by
    simp only [longLineFS, if_true]
  have hB : longLineFS (AddExtPrefix samplePath ".orig") = some "original" := by
    have : AddExtPrefix samplePath ".orig" = "/steamui/libraryroot~sp.orig.js" := by decide
    rw [this]
    decide
  have hall : ∀ c ∈ longFirstLine.data, (fun c => c != '\n') c = true := by
    intro c hc
    simp only [longFirstLine, List.mem_append, List.mem_replicate] at hc
    rcases hc with ⟨_, rfl⟩ | hc
    · decide
    · revert c; decide
  have hfl : firstLineOf longFirstLine = longFirstLine := by
    unfold firstLineOf
    rw [List.takeWhile_eq_self_iff.mpr hall]
  have hlen : maxScanTokenSize ≤ byteLen (firstLineOf longFirstLine).data := by
    rw [hfl]
    simp only [longFirstLine, byteLen_append, byteLen_replicate]
    omega
  have hcon : stringsContains (firstLineOf longFirstLine) "patched by crankshaft" = true := by
    rw [hfl]
    have hin := List.infix_append' (List.replicate maxScanTokenSize 'a') patchMarker.data []
    rw [List.append_nil] at hin
    exact (containsFrom_iff _ _).mpr hin
  have hck : checkForOriginal longLineFS samplePath = (longLineFS, none) := by
    have heq := checkForOriginal_eq longLineFS samplePath longFirstLine hT
    have hc := scanFirstLine_contains longFirstLine
    have hnot : ¬ byteLen (firstLineOf longFirstLine).data < maxScanTokenSize := by omega
    rw [decide_eq_false hnot, Bool.false_and] at hc
    rw [hc] at heq
    exact heq
  refine ⟨hT, hcon, hB, hck, ?_, ?_⟩
  · rw [hck]; exact hT
  · simp only [Copy, hB]
    exact FS.write_same _ _ _

/-! ## The pipeline -/

/-- Claim C7: with the files as a map from paths to contents, the formatter a
function of the content and the reload without effect on files, a second run of
`PatchJS` on the files left by a first run, with the same server port, leaves
the script with the same content as the first run did. -/
theorem PatchJS_idempotent (env : Env) (fs : FS)
    (steamuiPath debugPort debugPort2 serverPort : String) :
    (PatchJS env (PatchJS env fs steamuiPath debugPort serverPort).1
        steamuiPath debugPort2 serverPort).1 (env.pathJoin steamuiPath libraryRootSP)
      = (PatchJS env fs steamuiPath debugPort serverPort).1
          (env.pathJoin steamuiPath libraryRootSP) := by
  cases h : fs (env.pathJoin steamuiPath libraryRootSP) with
  | none =>
    rw [PatchJS_missing env fs steamuiPath debugPort serverPort h,
      PatchJS_missing env fs steamuiPath debugPort2 serverPort h]
  | some content =>
    have hf := PatchJS_files env fs steamuiPath debugPort serverPort content h
    have hf2 := PatchJS_files env _ steamuiPath debugPort2 serverPort _ hf.1
    rw [hf2.1, hf.1]
    rw [pristine_of_intact _ _ _ _ hf.2 (contentAfterRun_cases env serverPort _)]

/-- Claim C8: when the script holds a never patched content `original` (its first
line does not carry the marker, or no backup exists yet), then after any number
`N >= 1` of successive runs of `PatchJS` the backup path holds `original`, and
the script holds `original` or a content carrying the marker.  This state is an
invariant: every further run preserves it, so the backup is never overwritten
with patched content. -/
theorem PatchJS_backup_invariant (env : Env) (fs : FS) (steamuiPath original : String)
    (runs : List (String × String))
    (hT : fs (env.pathJoin steamuiPath libraryRootSP) = some original)
    (hfresh : stringsContains (scanFirstLine original) "patched by crankshaft" = false ∨
      fs (AddExtPrefix (env.pathJoin steamuiPath libraryRootSP) ".orig") = none)
    (hruns : runs ≠ []) :
    (patchRuns env steamuiPath fs runs)
        (AddExtPrefix (env.pathJoin steamuiPath libraryRootSP) ".orig") = some original ∧
      BackupIntact (patchRuns env steamuiPath fs runs)
        (env.pathJoin steamuiPath libraryRootSP) original ∧
      ∀ fs1 debugPort serverPort,
        BackupIntact fs1 (env.pathJoin steamuiPath libraryRootSP) original →
        BackupIntact (PatchJS env fs1 steamuiPath debugPort serverPort).1
          (env.pathJoin steamuiPath libraryRootSP) original := by
  have hp : pristine fs (env.pathJoin steamuiPath libraryRootSP) original = original := by
    unfold pristine
    rcases hfresh with hm | hB
    · have hm2 : stringsContains (scanFirstLine original) patchMarker = false := hm
      rw [hm2]; rfl
    · rw [hB]; simp
  have hall : BackupIntact (patchRuns env steamuiPath fs runs)
      (env.pathJoin steamuiPath libraryRootSP) original := by
    cases runs with
    | nil => exact absurd rfl hruns
    | cons r rest =>
      obtain ⟨debugPort, serverPort⟩ := r
      exact BackupIntact_runs env steamuiPath original rest _
        (BackupIntact_after env fs steamuiPath debugPort serverPort original original hT hp)
  exact ⟨hall.1, hall, fun fs1 debugPort serverPort h1 =>
    BackupIntact_step env fs1 steamuiPath debugPort serverPort original h1⟩

/-- Claim C8, witness: three runs on the sample files, whose script is the eight
lines of the scenario. -/
theorem PatchJS_backup_invariant_witness :
    sampleFS (sampleEnv.pathJoin "/steamui" libraryRootSP) = some (stringsJoin fooClass "\n") ∧
    (stringsContains (scanFirstLine (stringsJoin fooClass "\n")) "patched by crankshaft" = false ∨
      sampleFS (AddExtPrefix (sampleEnv.pathJoin "/steamui" libraryRootSP) ".orig") = none) ∧
    [("8080", "1234"), ("8080", "1234"), ("8080", "1234")] ≠ ([] : List (String × String)) ∧
    (patchRuns sampleEnv "/steamui" sampleFS [("8080", "1234"), ("8080", "1234"), ("8080", "1234")])
        (AddExtPrefix (sampleEnv.pathJoin "/steamui" libraryRootSP) ".orig")
      = some (stringsJoin fooClass "\n") :=
  ⟨by decide, Or.inl (by decide), by decide,
    (PatchJS_backup_invariant sampleEnv sampleFS "/steamui" (stringsJoin fooClass "\n")
      [("8080", "1234"), ("8080", "1234"), ("8080", "1234")] (by decide) (Or.inl (by decide))
      (by decide)).1⟩

/-! ## The scenario, end to end -/

/-- The scenario through the whole pipeline in the sample environment: the run
ends without error, the script holds the bootstrap, the eight lines and the
exposure line below the constructor line, and the backup holds the eight lines. -/
theorem PatchJS_sample :
    (PatchJS sampleEnv sampleFS "/steamui" "8080" "1234").2 = Exit.nil ∧
    (PatchJS sampleEnv sampleFS "/steamui" "8080" "1234").1 samplePath
      = some (stringsJoin [script "1234", "class Foo \x7b", "  constructor(a) \x7b", exposure,
          "    this.a = a;", "  \x7d", "  OpenQuickAccessMenu(e) \x7b", "    return e;",
          "  \x7d", "\x7d"] "\n") ∧
    (PatchJS sampleEnv sampleFS "/steamui" "8080" "1234").1 "/steamui/libraryroot~sp.orig.js"
      = some (stringsJoin fooClass "\n") := by
  decide

end Crankshaft
